import Mathlib

/-!
Verification of the audio-stitching pipeline (`stitch.py`).

The development shallowly embeds the core of `stitch.py`: text
normalization (`main`/`get_cache_key`, the `CLEAN_CHARACTERS` alphabet and
the `re.sub` whitespace collapse), the matcher loop (`re.search` of each
catalog file name inside the cleaned message), the ordering step
(Python's stable `sorted` by match start), segment generation
(`Repo.make_segments`, including the bucket-only silent-placeholder
fallback), persistence (`LocalRepo.write` / `BucketRepo.write` with its
demo fallback) and the cache helpers (`get_cache_key`, `check_cache`,
`cache_result`).

External effectful collaborators (boto3 S3 calls, pydub decoding,
file export, hashlib digests) are modelled as explicit outcome-valued
parameters carried by `RepoModel`; an `Except.error ()` outcome stands
for the corresponding Python call raising an exception.
-/

/-- The character class matched by Python's `\s` on ASCII input.  After the
`CLEAN_CHARACTERS` filter only `' '` can actually occur, but the collapse in
the source is applied with the full class. -/
def isPySpace (c : Char) : Bool :=
  c = ' ' || c = '\t' || c = '\n' || c = '\r' || c = '\x0b' || c = '\x0c'

/-- `CLEAN_CHARACTERS = "abcdefghijklmnopqrstuvwxyz1234567890 "` (stitch.py line 18). -/
def CLEAN_CHARACTERS : List Char :=
  "abcdefghijklmnopqrstuvwxyz1234567890 ".toList

/-- `message.lower()`: per-character ASCII lowercasing. -/
def lowerList (s : List Char) : List Char :=
  s.map Char.toLower

/-- `''.join([c for c in s if c in CLEAN_CHARACTERS])`. -/
def filterClean (s : List Char) : List Char :=
  s.filter (fun c => decide (c ∈ CLEAN_CHARACTERS))

/-- `re.sub('\s+', ' ', s)`: every maximal run of whitespace characters is
replaced by a single space.  The flag records whether we are currently inside
a whitespace run. -/
def collapseAux : Bool → List Char → List Char
  | _, [] => []
  | inRun, c :: rest =>
    if isPySpace c then
      if inRun then collapseAux true rest
      else ' ' :: collapseAux true rest
    else c :: collapseAux false rest

/-- `re.sub('\s+', ' ', s)` applied from the initial (not-in-a-run) state. -/
def collapseWS (s : List Char) : List Char :=
  collapseAux false s

/-- `clean_message` of stitch.py lines 230 and 257:
`re.sub('\s+', ' ', ''.join([c for c in message.lower() if c in CLEAN_CHARACTERS]))`. -/
def normalizeL (message : List Char) : List Char :=
  collapseWS (filterClean (lowerList message))

/-- `FileInfo = namedtuple('FileInfo', ['root','name','ext','fullpath','hash'])`. -/
structure FileInfo where
  root : List Char
  name : List Char
  ext : List Char
  fullpath : List Char
  hash : List Char
deriving DecidableEq

/-- `StitchFile = namedtuple('StitchFile', ['start','end','info'])`; the
source field `end` is a Lean keyword and is called `stop` here. -/
structure StitchFile where
  start : Nat
  stop : Nat
  info : FileInfo
deriving DecidableEq

/-- One atom of a compiled regex pattern: either the `.` metacharacter
(matches any character) or a literal character.  This models the fragment of
Python's regex syntax in which the pattern contains no metacharacter other
than `.`; every pattern appearing in a theorem below lies in this fragment. -/
inductive RAtom where
  | dot : RAtom
  | lit : Char → RAtom
deriving DecidableEq

/-- Compile a pattern string within the literal-and-dot fragment. -/
def compilePat (p : List Char) : List RAtom :=
  p.map (fun c => if c = '.' then RAtom.dot else RAtom.lit c)

/-- Does one regex atom match one character. -/
def atomMatches : RAtom → Char → Bool
  | RAtom.dot, _ => true
  | RAtom.lit l, c => l = c

/-- Does the pattern match a prefix of `s` (anchored at the head of `s`). -/
def matchesHere : List RAtom → List Char → Bool
  | [], _ => true
  | _ :: _, [] => false
  | a :: ps, c :: cs => atomMatches a c && matchesHere ps cs

/-- Scan of `re.search`: try to match at offset `i`, then at `i+1`, ... -/
def reSearchAux (pat : List RAtom) : List Char → Nat → Option (Nat × Nat)
  | s, i =>
    if matchesHere pat s then some (i, i + pat.length)
    else
      match s with
      | [] => none
      | _ :: t => reSearchAux pat t (i + 1)

/-- `re.search(pat, s)` (for patterns in the literal-and-dot fragment):
the span `(m.start(), m.end())` of the leftmost match, or `none`. -/
def reSearch (pat : List RAtom) (s : List Char) : Option (Nat × Nat) :=
  reSearchAux pat s 0

/-- Plain (regex-free) substring containment, as the specification words it. -/
def isSubstring (w s : List Char) : Bool :=
  (List.range (s.length + 1)).any (fun i => w.isPrefixOf (s.drop i))

/-- The matcher loop of `main` (stitch.py lines 233-240): for each catalog
file, `re.search(file.name.lower(), clean_message)`; on a hit, append
`StitchFile(found.start(), found.end(), file)`. -/
def findStitchFiles (files : List FileInfo) (cleanMsg : List Char) : List StitchFile :=
  files.filterMap (fun f =>
    match reSearch (compilePat (lowerList f.name)) cleanMsg with
    | some (s, e) => some ⟨s, e, f⟩
    | none => none)

/-- The sort key of stitch.py line 243: `key=lambda f: f.start`. -/
def byStart (a b : StitchFile) : Prop :=
  a.start ≤ b.start

instance : DecidableRel byStart :=
  fun a b => Nat.decLe a.start b.start

instance : IsTotal StitchFile byStart :=
  ⟨fun a b => Nat.le_total a.start b.start⟩

instance : IsTrans StitchFile byStart :=
  ⟨fun _ _ _ hab hbc => Nat.le_trans hab hbc⟩

/-- `sorted(stitch_files, key=lambda f: f.start)` (stitch.py line 243).
Python's `sorted` is guaranteed stable; insertion sort with the non-strict
key comparison is exactly that stable sort. -/
def sortByStart (l : List StitchFile) : List StitchFile :=
  List.insertionSort byStart l

/-- An in-memory audio segment: either the decoded content of a source
(abstract, tagged by an identifier chosen by the decoder environment) or
`pydub.AudioSegment.silent(duration=ms)`. -/
inductive Audio where
  | clip : List Char → Audio
  | silentMs : Nat → Audio
deriving DecidableEq

/-- Observable outcome of a `main` run: an early return on a cache hit, or a
fresh stitch whose written buffer is the ordered list of segments (list
concatenation embeds the `+=` concatenation of audio buffers; `[]` embeds
`pydub.AudioSegment.empty()`). -/
inductive MainOutcome where
  | hit : MainOutcome
  | wrote : List Audio → MainOutcome
deriving DecidableEq

/-- Environment of one pipeline run: the repository variant together with the
outcomes of its effectful collaborators.  `isBucket` embeds the
`hasattr(repo, '_BucketRepo__s3_client')` test; each `Except Unit _` field is
the outcome of the corresponding Python call, `.error ()` meaning the call
raised.  `dec p` is the combined read-and-decode of the asset at path `p`
(`AudioSegment.from_file`, plus the S3 download on the bucket variant);
`exportWrite` is the export of the stitched audio to the output destination
(temp-file export plus `put_object` on the bucket variant); `demoUpload` is
the `put_object` of the demo text file in `BucketRepo.write`'s `except`
branch; `cacheHead` is `head_object` on `cache/<key>.mp3` (raises on a
miss); `cacheCopy` is the `copy_object` from the cache key to the output
key; `cacheRecord` is the `copy_object` from the output key to the cache
key in `cache_result`. -/
structure RepoModel where
  isBucket : Bool
  files : List FileInfo
  dec : List Char → Except Unit Audio
  exportWrite : List Audio → Except Unit Unit
  demoUpload : Except Unit Unit
  cacheHead : List Char → Except Unit Unit
  cacheCopy : List Char → Except Unit Unit
  cacheRecord : List Char → Except Unit Unit

/-- `get_cache_key` (stitch.py lines 255-258): the digest of the cleaned
message.  `hashlib.md5(...).hexdigest()` is an external library call and is
modelled by the abstract `digest` parameter. -/
def get_cache_key (digest : List Char → List Char) (message : List Char) : List Char :=
  digest (normalizeL message)

/-- `check_cache` (stitch.py lines 260-279): on the bucket variant, try
`head_object` then `copy_object`; any exception is swallowed by the bare
`except` and reported as a miss (`False`).  Non-bucket repos always miss. -/
def check_cache (r : RepoModel) (key : List Char) : Bool :=
  if r.isBucket then
    match r.cacheHead key with
    | Except.error _ => false
    | Except.ok _ =>
      match r.cacheCopy key with
      | Except.error _ => false
      | Except.ok _ => true
  else false

/-- `cache_result` (stitch.py lines 281-295): on the bucket variant the
`copy_object` outcome is swallowed (`except Exception` logs a warning); the
function returns `True` in every case. -/
def cache_result (r : RepoModel) (key : List Char) : Bool :=
  if r.isBucket then
    match r.cacheRecord key with
    | Except.ok _ => true
    | Except.error _ => true
  else true

/-- The local branch of `Repo.make_segments` forced by `list(...)`:
`pd.AudioSegment.from_file(path)` for each path in turn, the first raised
exception propagating. -/
def mapDecode (dec : List Char → Except Unit Audio) : List (List Char) → Except Unit (List Audio)
  | [] => Except.ok []
  | p :: ps =>
    match dec p with
    | Except.error e => Except.error e
    | Except.ok a =>
      match mapDecode dec ps with
      | Except.error e => Except.error e
      | Except.ok rest => Except.ok (a :: rest)

/-- `Repo.make_segments` (stitch.py lines 47-68).  On the bucket variant any
exception while reading/decoding a path is caught and replaced by
`AudioSegment.silent(duration=1000)`; on the local variant
`AudioSegment.from_file` is called with no handler, so a failure
propagates. -/
def RepoModel.make_segments (r : RepoModel) (paths : List (List Char)) : Except Unit (List Audio) :=
  if r.isBucket then
    Except.ok (paths.map (fun p =>
      match r.dec p with
      | Except.ok seg => seg
      | Except.error _ => Audio.silentMs 1000))
  else mapDecode r.dec paths

/-- The repo `write` methods.  `LocalRepo.write` (lines 184-190) exports and
returns `True`, a raised exception propagating.  `BucketRepo.write`
(lines 113-152) catches any exception from the export/upload, uploads a demo
text file instead and still returns `True`; only an exception from that
fallback upload propagates. -/
def RepoModel.write (r : RepoModel) (stitched : List Audio) : Except Unit Bool :=
  if r.isBucket then
    match r.exportWrite stitched with
    | Except.ok _ => Except.ok true
    | Except.error _ =>
      match r.demoUpload with
      | Except.ok _ => Except.ok true
      | Except.error e => Except.error e
  else
    match r.exportWrite stitched with
    | Except.ok _ => Except.ok true
    | Except.error e => Except.error e

/-- The cache-miss path of `main` (stitch.py lines 228-253): match, order,
stitch, persist, then best-effort `cache_result` whose value is discarded. -/
def freshStitch (r : RepoModel) (key : List Char) (cleanMsg : List Char) :
    Except Unit MainOutcome :=
  let ordered := sortByStart (findStitchFiles r.files cleanMsg)
  match r.make_segments (ordered.map (fun f => f.info.fullpath)) with
  | Except.error e => Except.error e
  | Except.ok segs =>
    match r.write segs with
    | Except.error e => Except.error e
    | Except.ok _ =>
      let _cr := cache_result r key
      Except.ok (MainOutcome.wrote segs)

/-- `main` (stitch.py lines 218-253): derive the cache key, short-circuit on
a cache hit, otherwise run the fresh match/order/stitch/persist path on the
cleaned message.  (Named `mainRun` because `main` is reserved by Lean.) -/
def mainRun (r : RepoModel) (digest : List Char → List Char) (message : List Char) :
    Except Unit MainOutcome :=
  let key := get_cache_key digest message
  if check_cache r key then Except.ok MainOutcome.hit
  else freshStitch r key (normalizeL message)

/-- A catalog entry for an asset file `cat.mp3`. -/
def fileCat : FileInfo :=
  { root := "./audios".toList
    name := "cat".toList
    ext := ".mp3".toList
    fullpath := "./audios/cat.mp3".toList
    hash := "h1".toList }

/-- A catalog entry for an asset file named `c.t.mp3`: its name `c.t`
contains the regex metacharacter `.`. -/
def fileCdotT : FileInfo :=
  { root := "./audios".toList
    name := "c.t".toList
    ext := ".mp3".toList
    fullpath := "./audios/c.t.mp3".toList
    hash := "h2".toList }

/-- A decoder environment in which every decode succeeds. -/
def decOk : List Char → Except Unit Audio :=
  fun p => Except.ok (Audio.clip p)

/-- A decoder environment in which every decode raises. -/
def decFail : List Char → Except Unit Audio :=
  fun _ => Except.error ()

/-- A local repository holding `cat.mp3`, with a working decoder and writer
and (vacuous) cache collaborators. -/
def localRepoA : RepoModel :=
  { isBucket := false
    files := [fileCat]
    dec := decOk
    exportWrite := fun _ => Except.ok ()
    demoUpload := Except.ok ()
    cacheHead := fun _ => Except.error ()
    cacheCopy := fun _ => Except.error ()
    cacheRecord := fun _ => Except.error () }

/-- A local repository holding `cat.mp3` whose decoder raises on every path. -/
def localRepoDecFail : RepoModel :=
  { localRepoA with dec := decFail }

/-- A bucket repository whose export raises (e.g. missing ffmpeg) but whose
fallback demo upload succeeds; every cache call raises. -/
def bucketRepoDemo : RepoModel :=
  { isBucket := true
    files := []
    dec := decFail
    exportWrite := fun _ => Except.error ()
    demoUpload := Except.ok ()
    cacheHead := fun _ => Except.error ()
    cacheCopy := fun _ => Except.error ()
    cacheRecord := fun _ => Except.error () }

/-- A bucket repository holding `cat.mp3` whose decoder raises but whose
export succeeds; every cache call raises. -/
def bucketRepoDecFail : RepoModel :=
  { bucketRepoDemo with
    files := [fileCat]
    exportWrite := fun _ => Except.ok () }

/-- A local repository whose export to the output file raises. -/
def localRepoWriteFail : RepoModel :=
  { localRepoA with exportWrite := fun _ => Except.error () }

/-- Every character emitted by `collapseAux` is a character of the input or a
space. -/
lemma mem_collapseAux (c : Char) :
    ∀ (l : List Char) (b : Bool), c ∈ collapseAux b l → c ∈ l ∨ c = ' ' := by
  intro l
  induction l with
  | nil => intro b h; simp [collapseAux] at h
  | cons d t ih =>
    intro b h
    cases hd : isPySpace d with
    | true =>
      cases b with
      | true =>
        simp only [collapseAux, hd, if_true] at h
        rcases ih true h with h1 | h1
        · exact Or.inl (List.mem_cons_of_mem _ h1)
        · exact Or.inr h1
      | false =>
        simp only [collapseAux, hd, if_true, Bool.false_eq_true, if_false] at h
        rcases List.mem_cons.mp h with h1 | h1
        · exact Or.inr h1
        · rcases ih true h1 with h2 | h2
          · exact Or.inl (List.mem_cons_of_mem _ h2)
          · exact Or.inr h2
    | false =>
      simp only [collapseAux, hd, Bool.false_eq_true, if_false] at h
      rcases List.mem_cons.mp h with h1 | h1
      · exact Or.inl (h1 ▸ List.mem_cons_self d t)
      · rcases ih false h1 with h2 | h2
        · exact Or.inl (List.mem_cons_of_mem _ h2)
        · exact Or.inr h2

/-- Every character of the normalized message is in the allowed alphabet. -/
lemma normalize_mem_clean (s : List Char) :
    ∀ c ∈ normalizeL s, c ∈ CLEAN_CHARACTERS := by
  intro c hc
  rcases mem_collapseAux c _ false hc with h1 | h1
  · exact of_decide_eq_true (List.mem_filter.mp h1).2
  · rw [h1]; decide

/-- The head of `collapseAux true l` is never a whitespace character. -/
lemma collapseAux_true_head :
    ∀ (l : List Char) (c : Char), (collapseAux true l).head? = some c → isPySpace c = false := by
  intro l
  induction l with
  | nil => intro c h; simp [collapseAux] at h
  | cons d t ih =>
    intro c h
    cases hd : isPySpace d with
    | true =>
      simp only [collapseAux, hd, if_true] at h
      exact ih c h
    | false =>
      simp only [collapseAux, hd, Bool.false_eq_true, if_false, List.head?_cons,
        Option.some.injEq] at h
      exact h ▸ hd

/-- The collapse never emits two consecutive spaces. -/
lemma collapseAux_chain :
    ∀ (l : List Char) (b : Bool),
      List.Chain' (fun a b' => ¬(a = ' ' ∧ b' = ' ')) (collapseAux b l) := by
  intro l
  induction l with
  | nil => intro b; simp [collapseAux]
  | cons d t ih =>
    intro b
    cases hd : isPySpace d with
    | true =>
      cases b with
      | true =>
        simpa only [collapseAux, hd, if_true] using ih true
      | false =>
        simp only [collapseAux, hd, if_true, Bool.false_eq_true, if_false]
        refine List.chain'_cons'.mpr ⟨?_, ih true⟩
        intro y hy hcontra
        have := collapseAux_true_head t y hy
        rw [hcontra.2] at this
        simp [isPySpace] at this
    | false =>
      simp only [collapseAux, hd, Bool.false_eq_true, if_false]
      refine List.chain'_cons'.mpr ⟨?_, ih false⟩
      intro y _ hcontra
      rw [hcontra.1] at hd
      simp [isPySpace] at hd

/-- The normalized message never contains two consecutive spaces. -/
lemma normalize_chain (s : List Char) :
    List.Chain' (fun a b => ¬(a = ' ' ∧ b = ' ')) (normalizeL s) :=
  collapseAux_chain _ false

/-- Every allowed character is fixed by lowercasing. -/
lemma clean_toLower_fixed : ∀ c ∈ CLEAN_CHARACTERS, Char.toLower c = c := by
  intro c hc
  have h : CLEAN_CHARACTERS.all (fun c => c.toLower == c) = true := by decide
  exact eq_of_beq (List.all_eq_true.mp h c hc)

/-- The only whitespace character in the allowed alphabet is the space. -/
lemma clean_space_eq : ∀ c ∈ CLEAN_CHARACTERS, isPySpace c = true → c = ' ' := by
  intro c hc hsp
  have h : CLEAN_CHARACTERS.all (fun c => !isPySpace c || c == ' ') = true := by decide
  have h2 := List.all_eq_true.mp h c hc
  rw [hsp] at h2
  simpa using h2

/-- A map whose function fixes every element of the list is the identity. -/
lemma map_fixed {f : Char → Char} :
    ∀ l : List Char, (∀ c ∈ l, f c = c) → l.map f = l := by
  intro l
  induction l with
  | nil => intro _; rfl
  | cons d t ih =>
    intro h
    simp only [List.map_cons, h d (List.mem_cons_self d t),
      ih (fun c hc => h c (List.mem_cons_of_mem _ hc))]

/-- On a list whose whitespace characters are all `' '` and which never has
two consecutive spaces, the collapse is the identity. -/
lemma collapseAux_false_fix :
    ∀ (n : Nat) (l : List Char), l.length ≤ n →
      (∀ c ∈ l, isPySpace c = true → c = ' ') →
      List.Chain' (fun a b => ¬(a = ' ' ∧ b = ' ')) l →
      collapseAux false l = l := by
  intro n
  induction n with
  | zero =>
    intro l hlen _ _
    rw [List.length_eq_zero.mp (Nat.le_zero.mp hlen)]
    rfl
  | succ n ih =>
    intro l hlen hsp hch
    match l with
    | [] => rfl
    | c :: t =>
      cases hc : isPySpace c with
      | false =>
        have hred : collapseAux false (c :: t) = c :: collapseAux false t := by
          simp [collapseAux, hc]
        rw [hred,
          ih t (Nat.le_of_succ_le_succ hlen)
            (fun d hd hsd => hsp d (List.mem_cons_of_mem _ hd) hsd) hch.tail]
      | true =>
        have hceq : c = ' ' := hsp c (List.mem_cons_self c t) hc
        subst hceq
        have hred : collapseAux false (' ' :: t) = ' ' :: collapseAux true t := by
          simp [collapseAux, isPySpace]
        rw [hred]
        match t with
        | [] => rfl
        | d :: t' =>
          have hdne : d ≠ ' ' := by
            intro hcontra
            exact (List.chain'_cons'.mp hch).1 d rfl ⟨rfl, hcontra⟩
          have hdsp : isPySpace d = false := by
            cases hds : isPySpace d
            · rfl
            · exact absurd (hsp d (by simp) hds) hdne
          have hred2 : collapseAux true (d :: t') = d :: collapseAux false t' := by
            simp [collapseAux, hdsp]
          rw [hred2]
          have hlen' : t'.length ≤ n := by
            have := Nat.le_of_succ_le_succ hlen
            exact Nat.le_of_succ_le this
          rw [ih t' hlen'
            (fun e he hse => hsp e (List.mem_cons_of_mem _ (List.mem_cons_of_mem _ he)) hse)
            hch.tail.tail]

/-- C2: for every raw input, the normalized message is obtained by
lowercasing, filtering to the alphabet `{a-z, 0-9, space}` and collapsing
whitespace runs; consequently it contains only allowed characters and never
two consecutive spaces.  (Totality is by construction: `normalizeL` is a
total function.) -/
theorem normalize_clean_alphabet (s : List Char) :
    normalizeL s = collapseWS (filterClean (lowerList s))
    ∧ (∀ c ∈ normalizeL s, c ∈ CLEAN_CHARACTERS)
    ∧ List.Chain' (fun a b => ¬(a = ' ' ∧ b = ' ')) (normalizeL s) :=
  ⟨rfl, normalize_mem_clean s, normalize_chain s⟩

/-- C3: normalization is idempotent. -/
theorem normalize_idempotent (s : List Char) :
    normalizeL (normalizeL s) = normalizeL s := by
  have hmem := normalize_mem_clean s
  have h1 : lowerList (normalizeL s) = normalizeL s :=
    map_fixed _ (fun c hc => clean_toLower_fixed c (hmem c hc))
  have h2 : filterClean (normalizeL s) = normalizeL s := by
    rw [filterClean, List.filter_eq_self]
    intro c hc
    exact decide_eq_true (hmem c hc)
  have h3 : collapseWS (normalizeL s) = normalizeL s :=
    collapseAux_false_fix (normalizeL s).length _ (Nat.le_refl _)
      (fun c hc hsp => clean_space_eq c (hmem c hc) hsp) (normalize_chain s)
  rw [normalizeL, h1, h2]
  exact h3

/-- Inserting `a` into `l` commutes with restricting to the matches of any
single start value: the inserted element lands before exactly the elements of
`l` whose start is strictly larger, so elements sharing one start value keep
their relative order. -/
lemma filter_orderedInsert (v : Nat) (a : StitchFile) :
    ∀ l : List StitchFile,
      (List.orderedInsert byStart a l).filter (fun f => f.start == v)
        = ((a :: l).filter (fun f => f.start == v)) := by
  intro l
  induction l with
  | nil => rfl
  | cons b t ih =>
    by_cases hab : byStart a b
    · rw [List.orderedInsert_of_le _ _ hab]
    · have hred : List.orderedInsert byStart a (b :: t)
          = b :: List.orderedInsert byStart a t := by
        simp [List.orderedInsert, hab]
      have hba : b.start < a.start := Nat.lt_of_not_le hab
      rw [hred]
      by_cases hav : a.start = v
      · by_cases hbv : b.start = v
        · omega
        · simp [List.filter_cons, hav, hbv, ih]
      · simp [List.filter_cons, hav, ih]

/-- The stable sort of the orderer preserves, for each start value, the
relative order of the matches carrying that start value. -/
lemma filter_sortByStart (v : Nat) :
    ∀ l : List StitchFile,
      (sortByStart l).filter (fun f => f.start == v) = l.filter (fun f => f.start == v) := by
  intro l
  induction l with
  | nil => rfl
  | cons a t ih =>
    have hred : sortByStart (a :: t) = List.orderedInsert byStart a (sortByStart t) := rfl
    rw [hred, filter_orderedInsert, List.filter_cons, List.filter_cons, ih]

/-- C5: the orderer returns the matches sorted ascending by start position;
the result is a permutation of the matcher's output, and matches sharing a
start position keep the matcher's relative order (stability), which pins the
output down uniquely: no other key influences the order. -/
theorem order_sorted_stable (l : List StitchFile) :
    (sortByStart l).Pairwise (fun a b => a.start ≤ b.start)
    ∧ (sortByStart l).Perm l
    ∧ ∀ v : Nat,
        (sortByStart l).filter (fun f => f.start == v) = l.filter (fun f => f.start == v) :=
  ⟨List.sorted_insertionSort byStart l, List.perm_insertionSort byStart l,
    fun v => filter_sortByStart v l⟩

/-- If every decode succeeds, decoding a path list succeeds. -/
lemma mapDecode_ok (dec : List Char → Except Unit Audio) :
    ∀ ps : List (List Char), (∀ p ∈ ps, ∃ a, dec p = Except.ok a) →
      ∃ l, mapDecode dec ps = Except.ok l := by
  intro ps
  induction ps with
  | nil => intro _; exact ⟨[], rfl⟩
  | cons q t ih =>
    intro h
    obtain ⟨a, ha⟩ := h q (List.mem_cons_self q t)
    obtain ⟨l, hl⟩ := ih (fun p hp => h p (List.mem_cons_of_mem _ hp))
    exact ⟨a :: l, by simp [mapDecode, ha, hl]⟩

/-- If the decode of some listed path raises, decoding the path list raises. -/
lemma mapDecode_error (dec : List Char → Except Unit Audio) :
    ∀ (ps : List (List Char)) (p : List Char), p ∈ ps → dec p = Except.error () →
      mapDecode dec ps = Except.error () := by
  intro ps
  induction ps with
  | nil => intro p hp _; simp at hp
  | cons q t ih =>
    intro p hp hperr
    rcases List.mem_cons.mp hp with h1 | h1
    · subst h1; simp [mapDecode, hperr]
    · cases hq : dec q with
      | error e => cases e; simp [mapDecode, hq]
      | ok a => simp [mapDecode, hq, ih p h1 hperr]

/-- The fresh-stitch path never reports a cache hit. -/
lemma freshStitch_ne_hit (r : RepoModel) (key cleanMsg : List Char) :
    freshStitch r key cleanMsg ≠ Except.ok MainOutcome.hit := by
  intro hcontra
  unfold freshStitch at hcontra
  dsimp only at hcontra
  split at hcontra
  · exact Except.noConfusion hcontra
  · split at hcontra
    · exact Except.noConfusion hcontra
    · simp at hcontra

/-- C4: two raw messages with equal normalized forms get the same cache key
(the digest of the normalized message) and the pipeline run is identical:
the raw message influences the key and the output only through
normalization. -/
theorem normalized_equal_same_key_output (r : RepoModel)
    (digest : List Char → List Char) (m1 m2 : List Char)
    (h : normalizeL m1 = normalizeL m2) :
    get_cache_key digest m1 = get_cache_key digest m2
    ∧ mainRun r digest m1 = mainRun r digest m2 := by
  constructor
  · simp only [get_cache_key, h]
  · simp only [mainRun, get_cache_key, h]

/-- Witness for C4 at a concrete pair of messages differing in case,
punctuation and spacing. -/
theorem normalized_equal_same_key_output_witness :
    normalizeL ("Hello,   World!".toList) = normalizeL ("hello world".toList)
    ∧ (get_cache_key (fun s => s) ("Hello,   World!".toList)
          = get_cache_key (fun s => s) ("hello world".toList)
        ∧ mainRun localRepoA (fun s => s) ("Hello,   World!".toList)
          = mainRun localRepoA (fun s => s) ("hello world".toList)) :=
  ⟨by decide,
    normalized_equal_same_key_output localRepoA (fun s => s) _ _ (by decide)⟩

/-- Counterexample to C6: on the bucket repository, an execution in which the
persist step cannot write the final output (`exportWrite` raises on every
buffer) still ends with `main` returning success, because `BucketRepo.write`
catches the failure and uploads a demo text file instead. -/
theorem bucket_persist_failure_reports_success :
    bucketRepoDemo.exportWrite [] = Except.error ()
    ∧ mainRun bucketRepoDemo (fun s => s) [] = Except.ok (MainOutcome.wrote []) :=
  ⟨rfl, rfl⟩

/-- C6 (amended): when the persist step cannot write the final output, the
local repository propagates the failure and the pipeline terminates in the
Failed state; the bucket repository swallows the failure and still reports
success whenever its fallback demo upload succeeds, terminating in the
Failed state only when that fallback also raises. -/
theorem persist_failure_policy (r : RepoModel) (digest : List Char → List Char)
    (msg : List Char) :
    (r.isBucket = false → (∀ p, ∃ a, r.dec p = Except.ok a) →
      (∀ s, r.exportWrite s = Except.error ()) →
      mainRun r digest msg = Except.error ())
    ∧ (r.isBucket = true → (∀ k, r.cacheHead k = Except.error ()) →
      (∀ s, r.exportWrite s = Except.error ()) → r.demoUpload = Except.error () →
      mainRun r digest msg = Except.error ())
    ∧ (r.isBucket = true → (∀ k, r.cacheHead k = Except.error ()) →
      (∀ s, r.exportWrite s = Except.error ()) → r.demoUpload = Except.ok () →
      ∃ segs, mainRun r digest msg = Except.ok (MainOutcome.wrote segs)) := by
  refine ⟨?_, ?_, ?_⟩
  · intro hb hdec hw
    have hcc : check_cache r (get_cache_key digest msg) = false := by
      simp [check_cache, hb]
    obtain ⟨segs, hsegs⟩ :=
      mapDecode_ok r.dec
        ((sortByStart (findStitchFiles r.files (normalizeL msg))).map
          (fun f => f.info.fullpath))
        (fun p _ => hdec p)
    have hms : r.make_segments
        ((sortByStart (findStitchFiles r.files (normalizeL msg))).map
          (fun f => f.info.fullpath)) = Except.ok segs := by
      simp [RepoModel.make_segments, hb, hsegs]
    simp [mainRun, hcc, freshStitch, hms, RepoModel.write, hb, hw]
  · intro hb hch hw hdemo
    have hcc : check_cache r (get_cache_key digest msg) = false := by
      simp [check_cache, hb, hch]
    simp [mainRun, hcc, freshStitch, RepoModel.make_segments, hb,
      RepoModel.write, hw, hdemo]
  · intro hb hch hw hdemo
    have hcc : check_cache r (get_cache_key digest msg) = false := by
      simp [check_cache, hb, hch]
    refine ⟨((sortByStart (findStitchFiles r.files (normalizeL msg))).map
        (fun f => f.info.fullpath)).map
        (fun p => match r.dec p with
          | Except.ok seg => seg
          | Except.error _ => Audio.silentMs 1000), ?_⟩
    simp [mainRun, hcc, freshStitch, RepoModel.make_segments, hb,
      RepoModel.write, hw, hdemo]

/-- Witness for C6 (amended), local part: the decoder succeeds, the export
raises, and the pipeline terminates in the Failed state. -/
theorem persist_failure_policy_witness :
    mainRun localRepoWriteFail (fun s => s) ("cat".toList) = Except.error () :=
  (persist_failure_policy localRepoWriteFail (fun s => s) ("cat".toList)).1 rfl
    (fun p => ⟨Audio.clip p, rfl⟩) (fun _ => rfl)

/-- C7: a raising cache operation never fails the pipeline.  If the cache
lookup raises (`cacheHead` raises on the derived key) then, whatever the
record outcome `rc`, `main` returns exactly what it returns under any other
cache environment that reports a miss — it completes the remaining stages,
namely the fresh match/order/stitch/persist path. -/
theorem cache_failure_never_fails_pipeline (r : RepoModel)
    (digest : List Char → List Char) (msg : List Char)
    (hd cp rc hd2 cp2 rc2 : List Char → Except Unit Unit)
    (hraise : hd (get_cache_key digest msg) = Except.error ())
    (hmiss : check_cache { r with cacheHead := hd2, cacheCopy := cp2, cacheRecord := rc2 }
        (get_cache_key digest msg) = false) :
    mainRun { r with cacheHead := hd, cacheCopy := cp, cacheRecord := rc } digest msg
      = mainRun { r with cacheHead := hd2, cacheCopy := cp2, cacheRecord := rc2 } digest msg
    ∧ mainRun { r with cacheHead := hd, cacheCopy := cp, cacheRecord := rc } digest msg
      = freshStitch { r with cacheHead := hd, cacheCopy := cp, cacheRecord := rc }
          (get_cache_key digest msg) (normalizeL msg) := by
  have h1 : check_cache { r with cacheHead := hd, cacheCopy := cp, cacheRecord := rc }
      (get_cache_key digest msg) = false := by
    cases hb : r.isBucket <;> simp [check_cache, hb, hraise]
  have h2 : mainRun { r with cacheHead := hd, cacheCopy := cp, cacheRecord := rc } digest msg
      = freshStitch { r with cacheHead := hd, cacheCopy := cp, cacheRecord := rc }
          (get_cache_key digest msg) (normalizeL msg) := by
    simp [mainRun, h1]
  have h3 : mainRun { r with cacheHead := hd2, cacheCopy := cp2, cacheRecord := rc2 } digest msg
      = freshStitch { r with cacheHead := hd2, cacheCopy := cp2, cacheRecord := rc2 }
          (get_cache_key digest msg) (normalizeL msg) := by
    simp [mainRun, hmiss]
  refine ⟨?_, h2⟩
  rw [h2, h3]
  rfl

/-- Witness for C7: a bucket repository whose cache lookup raises is compared
with one whose cache environment succeeds on record and misses on lookup. -/
theorem cache_failure_never_fails_pipeline_witness :
    mainRun { bucketRepoDecFail with
        cacheHead := fun _ => Except.error (),
        cacheCopy := fun _ => Except.error (),
        cacheRecord := fun _ => Except.error () } (fun s => s) ("cat".toList)
      = mainRun { bucketRepoDecFail with
          cacheHead := fun _ => Except.error (),
          cacheCopy := fun _ => Except.ok (),
          cacheRecord := fun _ => Except.ok () } (fun s => s) ("cat".toList)
    ∧ mainRun { bucketRepoDecFail with
        cacheHead := fun _ => Except.error (),
        cacheCopy := fun _ => Except.error (),
        cacheRecord := fun _ => Except.error () } (fun s => s) ("cat".toList)
      = freshStitch { bucketRepoDecFail with
          cacheHead := fun _ => Except.error (),
          cacheCopy := fun _ => Except.error (),
          cacheRecord := fun _ => Except.error () }
          (get_cache_key (fun s => s) ("cat".toList)) (normalizeL ("cat".toList)) :=
  cache_failure_never_fails_pipeline bucketRepoDecFail (fun s => s) ("cat".toList)
    (fun _ => Except.error ()) (fun _ => Except.error ()) (fun _ => Except.error ())
    (fun _ => Except.error ()) (fun _ => Except.ok ()) (fun _ => Except.ok ())
    rfl rfl

/-- C8: when no catalog name matches the normalized message the matcher list
is empty, the stitched buffer is the empty buffer and, provided the persist
of the empty buffer succeeds, the pipeline completes successfully. -/
theorem no_match_empty_output (r : RepoModel) (digest : List Char → List Char)
    (msg : List Char)
    (hmiss : check_cache r (get_cache_key digest msg) = false)
    (hnone : ∀ f ∈ r.files, reSearch (compilePat (lowerList f.name)) (normalizeL msg) = none)
    (hw : r.write [] = Except.ok true) :
    mainRun r digest msg = Except.ok (MainOutcome.wrote []) := by
  have hfs : findStitchFiles r.files (normalizeL msg) = [] := by
    rw [findStitchFiles, List.filterMap_eq_nil_iff]
    intro f hf
    rw [hnone f hf]
  have hms : r.make_segments [] = Except.ok [] := by
    cases hb : r.isBucket <;> simp [RepoModel.make_segments, hb, mapDecode]
  simp [mainRun, hmiss, freshStitch, hfs, sortByStart, hms, hw]

/-- Witness for C8: the catalog holds only `cat` and the message is `dog`. -/
theorem no_match_empty_output_witness :
    mainRun localRepoA (fun s => s) ("dog".toList) = Except.ok (MainOutcome.wrote []) :=
  no_match_empty_output localRepoA (fun s => s) ("dog".toList) rfl (by decide) rfl

/-- Counterexample to C9: on the local repository a decode failure is not
replaced by a silent buffer; it propagates and aborts the pipeline. -/
theorem local_decode_failure_aborts :
    localRepoDecFail.isBucket = false
    ∧ localRepoDecFail.dec (fileCat.fullpath) = Except.error ()
    ∧ mainRun localRepoDecFail (fun s => s) ("cat".toList) = Except.error () :=
  ⟨rfl, rfl, rfl⟩

/-- C9 (amended): on the bucket repository a failed read/decode of a matched
asset is replaced by a one-second (`1000` ms) silent buffer in that asset's
position and stitching continues; on the local repository a decode failure
propagates and aborts the pipeline. -/
theorem decode_failure_policy (r : RepoModel) (digest : List Char → List Char)
    (msg : List Char) :
    (r.isBucket = true → check_cache r (get_cache_key digest msg) = false →
      (∀ s, r.exportWrite s = Except.ok ()) →
      mainRun r digest msg = Except.ok (MainOutcome.wrote
        (((sortByStart (findStitchFiles r.files (normalizeL msg))).map
            (fun f => f.info.fullpath)).map
          (fun p => match r.dec p with
            | Except.ok seg => seg
            | Except.error _ => Audio.silentMs 1000))))
    ∧ (r.isBucket = false →
      (∃ f ∈ sortByStart (findStitchFiles r.files (normalizeL msg)),
        r.dec f.info.fullpath = Except.error ()) →
      mainRun r digest msg = Except.error ()) := by
  constructor
  · intro hb hmiss hw
    simp [mainRun, hmiss, freshStitch, RepoModel.make_segments, hb,
      RepoModel.write, hw]
  · intro hb hfail
    obtain ⟨f, hf, hferr⟩ := hfail
    have hcc : check_cache r (get_cache_key digest msg) = false := by
      simp [check_cache, hb]
    have hms : mapDecode r.dec
        ((sortByStart (findStitchFiles r.files (normalizeL msg))).map
          (fun f => f.info.fullpath)) = Except.error () :=
      mapDecode_error r.dec _ f.info.fullpath
        (List.mem_map_of_mem _ hf) hferr
    simp [mainRun, hcc, freshStitch, RepoModel.make_segments, hb, hms]

/-- Witness for C9 (amended), bucket part: the only matched asset fails to
decode and the written buffer is exactly one second of silence. -/
theorem decode_failure_policy_witness :
    mainRun bucketRepoDecFail (fun s => s) ("cat".toList)
      = Except.ok (MainOutcome.wrote [Audio.silentMs 1000]) :=
  ((decode_failure_policy bucketRepoDecFail (fun s => s) ("cat".toList)).1
    rfl rfl (fun _ => rfl)).trans rfl

/-- C10: a repository that is not a bucket repository always misses the
cache, its record step is a no-op returning `True`, and `main` always runs
the full fresh pipeline — it never short-circuits to a cache hit. -/
theorem local_repo_never_caches (r : RepoModel) (h : r.isBucket = false) :
    ∀ (k : List Char) (digest : List Char → List Char) (msg : List Char),
      check_cache r k = false
      ∧ cache_result r k = true
      ∧ mainRun r digest msg
          = freshStitch r (get_cache_key digest msg) (normalizeL msg)
      ∧ mainRun r digest msg ≠ Except.ok MainOutcome.hit := by
  intro k digest msg
  have h1 : check_cache r (get_cache_key digest msg) = false := by
    simp [check_cache, h]
  have h2 : mainRun r digest msg
      = freshStitch r (get_cache_key digest msg) (normalizeL msg) := by
    simp [mainRun, h1]
  refine ⟨by simp [check_cache, h], by simp [cache_result, h], h2, ?_⟩
  rw [h2]
  exact freshStitch_ne_hit r _ _

/-- Witness for C10 at a concrete local repository. -/
theorem local_repo_never_caches_witness :
    check_cache localRepoA ("k".toList) = false
    ∧ cache_result localRepoA ("k".toList) = true
    ∧ mainRun localRepoA (fun s => s) ("cat".toList)
        = freshStitch localRepoA (get_cache_key (fun s => s) ("cat".toList))
            (normalizeL ("cat".toList))
    ∧ mainRun localRepoA (fun s => s) ("cat".toList) ≠ Except.ok MainOutcome.hit :=
  local_repo_never_caches localRepoA rfl ("k".toList) (fun s => s) ("cat".toList)

/-- C1 at the failing input: the matcher passes the asset name to `re.search`
as an unescaped regex pattern, so the asset named `c.t` produces a Match with
span `[0, 3)` on the message `cat` even though `c.t` does not occur as a
substring of `cat` and the matched slice differs from the name — against the
specified substring-search contract. -/
theorem matcher_regex_not_substring :
    findStitchFiles [fileCdotT] ("cat".toList) = [⟨0, 3, fileCdotT⟩]
    ∧ isSubstring (lowerList fileCdotT.name) ("cat".toList) = false
    ∧ (("cat".toList.drop 0).take 3 ≠ lowerList fileCdotT.name) :=
  ⟨by decide, by decide, by decide⟩
